import Mathlib

/-!
Verification development for the horizontal-axis settings dock of an
oscilloscope GUI (`src/openhantek/src/docks/HorizontalDock.cpp`).

The C++ class `HorizontalDock` binds spin boxes and a combo box to the
horizontal acquisition parameters (samplerate, timebase, display format,
calibration frequency), propagates user edits into a shared settings
object (`DsoSettingsScope`) and re-emits them as Qt signals, and derives
the valid samplerate range from the current timebase.

The embedding below models `double` values as rationals, the widget set
as explicit record state, and a method call as a pure state transformer
that additionally returns an ordered trace of observable effects
(writes to the shared settings object, samplerate-limit updates, and
signal emissions), so that the order of effects inside one slot is
visible to theorems.
-/

/-- Observable effects of a `HorizontalDock` method call, in execution
order: writes to the shared settings object, a call to
`setSamplerateLimits`, and Qt signal emissions. -/
inductive Obs : Type
  | scopeSamplerate (v : ℚ)
  | scopeTimebase (v : ℚ)
  | scopeFormat (f : ℤ)
  | scopeCalfreq (v : ℚ)
  | samplerateLimits (lo hi : ℚ)
  | sigSamplerateChanged (v : ℚ)
  | sigTimebaseChanged (v : ℚ)
  | sigFormatChanged (f : ℤ)
  | sigCalfreqChanged (v : ℚ)
deriving DecidableEq

/-- True exactly on the signal-emission observations. -/
def Obs.isSig : Obs → Bool
  | .sigSamplerateChanged _ => true
  | .sigTimebaseChanged _ => true
  | .sigFormatChanged _ => true
  | .sigCalfreqChanged _ => true
  | _ => false

/-- True exactly on the writes to the shared settings object. -/
def Obs.isScopeWrite : Obs → Bool
  | .scopeSamplerate _ => true
  | .scopeTimebase _ => true
  | .scopeFormat _ => true
  | .scopeCalfreq _ => true
  | _ => false

/-- Modelled from the spec: the implementation of `SiSpinBox`
(`sispinbox.h`) is not part of this fragment.  Per the spec, the dock
binds "spin-boxes" with "basic input clamping": a spin box holds a
minimum, a maximum, a current value, a list of steps and a mode. -/
structure SiSpinBox : Type where
  minimum : ℚ
  maximum : ℚ
  value : ℚ
  steps : List ℚ
  mode : ℤ
deriving DecidableEq

/-- Modelled from the spec: assigning a value to a spin box clamps it
into the valid range `[minimum, maximum]` ("basic input clamping",
"possibly range-limited"). -/
def SiSpinBox.setValue (sb : SiSpinBox) (v : ℚ) : SiSpinBox :=
  { sb with value := max sb.minimum (min sb.maximum v) }

/-- Modelled from the spec: changing the minimum re-clamps the current
value into the new range. -/
def SiSpinBox.setMinimum (sb : SiSpinBox) (m : ℚ) : SiSpinBox :=
  { sb with minimum := m, value := max m (min sb.maximum sb.value) }

/-- Modelled from the spec: changing the maximum re-clamps the current
value into the new range. -/
def SiSpinBox.setMaximum (sb : SiSpinBox) (m : ℚ) : SiSpinBox :=
  { sb with maximum := m, value := max sb.minimum (min m sb.value) }

/-- Modelled from the spec: stores the list of preferred step values. -/
def SiSpinBox.setSteps (sb : SiSpinBox) (l : List ℚ) : SiSpinBox :=
  { sb with steps := l }

/-- Modelled from the spec: stores the stepping mode. -/
def SiSpinBox.setMode (sb : SiSpinBox) (m : ℤ) : SiSpinBox :=
  { sb with mode := m }

/-- Modelled from the spec: a freshly constructed spin box (Qt double
spin box defaults: range `[0, 99.99]`, value `0`, no steps). -/
def SiSpinBox.new : SiSpinBox :=
  { minimum := 0, maximum := 9999 / 100, value := 0, steps := [], mode := 0 }

/-- The horizontal part of the shared settings object
(`scope->horizontal` in `scopesettings.h`, used by the dock). -/
structure DsoSettingsScopeHorizontal : Type where
  samplerate : ℚ
  timebase : ℚ
  format : ℤ
  calfreq : ℚ
  maxTimebase : ℚ
deriving DecidableEq

/-- The shared settings object the dock writes user edits into. -/
structure DsoSettingsScope : Type where
  horizontal : DsoSettingsScopeHorizontal
deriving DecidableEq

/-- The device control specification; the dock uses only its list of
calibration-frequency steps. -/
structure ControlSpecification : Type where
  calfreqSteps : List ℚ
deriving DecidableEq

/-- Modelled from the spec: the display-format enumeration
(`Dso::GraphFormat`, outside this fragment) starts at `TY`; the combo
box lists the formats in enumeration order, so a format doubles as a
combo-box index. -/
def GraphFormatTY : ℤ := 0

/-- Modelled from the spec: `XY` is the last display format. -/
def GraphFormatXY : ℤ := 1

/-- The timebase step grid `1, 2, 5, 10`, repeated in each decade
(member `timebaseSteps`, filled once in the constructor, line 39, and
never modified afterwards). -/
def timebaseSteps : List ℚ := [1, 2, 5, 10]

/-- Fuel-indexed floor of the base-10 logarithm of a natural number. -/
def natLog10Aux : ℕ → ℕ → ℕ
  | 0, _ => 0
  | fuel + 1, n => if n < 10 then 0 else natLog10Aux fuel (n / 10) + 1

/-- Floor of the base-10 logarithm of a natural number (`0` on `0`). -/
def natLog10 (n : ℕ) : ℕ :=
  natLog10Aux n n

/-- Fuel-indexed ceiling of the base-10 logarithm of a natural number. -/
def natClog10Aux : ℕ → ℕ → ℕ
  | 0, _ => 0
  | fuel + 1, n => if n ≤ 1 then 0 else natClog10Aux fuel ((n + 9) / 10) + 1

/-- Ceiling of the base-10 logarithm of a natural number. -/
def natClog10 (n : ℕ) : ℕ :=
  natClog10Aux n n

/-- Floor of a nonnegative rational as a natural number. -/
def ratFloorNat (q : ℚ) : ℕ :=
  q.num.toNat / q.den

/-- Ceiling of a nonnegative rational as a natural number. -/
def ratCeilNat (q : ℚ) : ℕ :=
  (q.num.toNat + q.den - 1) / q.den

/-- The exact rational counterpart of C's `floor(log10 q)` for positive
`q`: for `q ≥ 1` it is the floor of the base-10 logarithm of the floor
of `q` (a power `10^z` with integer `z ≥ 0` is `≤ q` iff it is
`≤ ⌊q⌋`), and for `0 < q < 1` it is minus the ceiling of the base-10
logarithm of the ceiling of `1/q` (since `⌊log10 q⌋ = -⌈log10 (1/q)⌉`
and `10^z ≥ 1/q` iff `10^z ≥ ⌈1/q⌉`).  On `q ≤ 0` the C expression is
undefined; this model returns `0` there. -/
def floorLog10 (q : ℚ) : ℤ :=
  if 1 ≤ q then (natLog10 (ratFloorNat q) : ℤ) else -(natClog10 (ratCeilNat q⁻¹) : ℤ)

/-- The state of the dock: the shared settings object it points at, its
three spin boxes, the current combo-box index, and the stored list of
device samplerates. -/
structure HorizontalDock : Type where
  scope : DsoSettingsScope
  samplerateSiSpinBox : SiSpinBox
  timebaseSiSpinBox : SiSpinBox
  formatIndex : ℤ
  calfreqSiSpinBox : SiSpinBox
  samplerateSteps : List ℚ
deriving DecidableEq

/-- `HorizontalDock::setSamplerateLimits` (lines 151-158): a zero
argument leaves the corresponding spin-box bound untouched
(`if (bool(minimum))` / `if (bool(maximum))`); a nonzero argument
replaces it.  Signals are blocked, so no slot runs. -/
def HorizontalDock.setSamplerateLimits (d : HorizontalDock) (minimum maximum : ℚ) :
    HorizontalDock × List Obs :=
  let d1 :=
    if minimum ≠ 0 then
      { d with samplerateSiSpinBox := d.samplerateSiSpinBox.setMinimum minimum }
    else d
  let d2 :=
    if maximum ≠ 0 then
      { d1 with samplerateSiSpinBox := d1.samplerateSiSpinBox.setMaximum maximum }
    else d1
  (d2, [Obs.samplerateLimits minimum maximum])

/-- The loop of `HorizontalDock::calculateSamplerateSteps` (lines
203-217), recursing over the remaining samplerate steps with the
current index `id`: a step at `id < size - 1` with
`sRate * timebase ≤ 10` updates the minimum, a step at `id ≠ 0` with
`sRate * timebase ≤ 1000` updates the maximum. -/
def srLoopAux (timebase : ℚ) (size : ℕ) : ℕ → List ℚ → ℚ × ℚ → ℚ × ℚ
  | _, [], mm => mm
  | id, sRate :: rest, mm =>
      srLoopAux timebase size (id + 1) rest
        (if id < size - 1 ∧ sRate * timebase ≤ 10 then sRate else mm.1,
         if id ≠ 0 ∧ sRate * timebase ≤ 1000 then sRate else mm.2)

/-- `HorizontalDock::calculateSamplerateSteps` (lines 197-222): when the
stored samplerate list is nonempty, scan it for the appropriate minimum
and maximum samplerate, raise the minimum to `min(10e3, max)` if it is
smaller, and apply both via `setSamplerateLimits`; otherwise do
nothing. -/
def HorizontalDock.calculateSamplerateSteps (d : HorizontalDock) (timebase : ℚ) :
    HorizontalDock × List Obs :=
  let size := d.samplerateSteps.length
  if size ≠ 0 then
    let s0 := d.samplerateSteps.headD 0
    let mm := srLoopAux timebase size 0 d.samplerateSteps (s0, s0)
    let mn := max mm.1 (min 10000 mm.2)
    d.setSamplerateLimits mn mm.2
  else (d, [])

/-- `HorizontalDock::setSamplerate` (lines 106-113): with signals
blocked, refresh the timebase spin-box maximum from
`scope->horizontal.maxTimebase`, assign the samplerate spin-box value,
and return the resulting spin-box value. -/
def HorizontalDock.setSamplerate (d : HorizontalDock) (samplerate : ℚ) :
    HorizontalDock × ℚ × List Obs :=
  let d1 := { d with timebaseSiSpinBox := d.timebaseSiSpinBox.setMaximum d.scope.horizontal.maxTimebase }
  let d2 := { d1 with samplerateSiSpinBox := d1.samplerateSiSpinBox.setValue samplerate }
  (d2, (d2.samplerateSiSpinBox.value, []))

/-- The loop of `HorizontalDock::setTimebase` (lines 122-127): find the
first adjacent pair `a, b` of the timebase step grid with
`a ≤ vNorm < b` and return `a` (the `break` makes the first match
win). -/
def firstMatch : List ℚ → ℚ → Option ℚ
  | a :: b :: rest, v => if a ≤ v ∧ v < b then some a else firstMatch (b :: rest) v
  | _, _ => none

/-- `HorizontalDock::setTimebase` (lines 116-131): with signals blocked,
normalize the timebase into its decade, snap it onto the step grid via
the first matching adjacent pair (assigning
`decade * timebaseSteps[i]` to the timebase spin box), recompute the
samplerate limits from the requested timebase, and return the resulting
timebase spin-box value. -/
def HorizontalDock.setTimebase (d : HorizontalDock) (timebase : ℚ) :
    HorizontalDock × ℚ × List Obs :=
  let decade : ℚ := (10 : ℚ) ^ floorLog10 timebase
  let vNorm := timebase / decade
  let d1 :=
    match firstMatch timebaseSteps vNorm with
    | some s => { d with timebaseSiSpinBox := d.timebaseSiSpinBox.setValue (decade * s) }
    | none => d
  let c := d1.calculateSamplerateSteps timebase
  (c.1, (c.1.timebaseSiSpinBox.value, c.2))

/-- `HorizontalDock::setFormat` (lines 134-141): an in-range format is
written to the combo box and returned; anything else is rejected with
return value `-1` and no state change. -/
def HorizontalDock.setFormat (d : HorizontalDock) (format : ℤ) :
    HorizontalDock × ℤ × List Obs :=
  if GraphFormatTY ≤ format ∧ format ≤ GraphFormatXY then
    ({ d with formatIndex := format }, (format, []))
  else (d, (-1, []))

/-- `HorizontalDock::setCalfreq` (lines 144-148): with signals blocked,
assign the calibration-frequency spin-box value and return the
resulting spin-box value. -/
def HorizontalDock.setCalfreq (d : HorizontalDock) (calfreq : ℚ) :
    HorizontalDock × ℚ × List Obs :=
  let d1 := { d with calfreqSiSpinBox := d.calfreqSiSpinBox.setValue calfreq }
  (d1, (d1.calfreqSiSpinBox.value, []))

/-- `HorizontalDock::loadSettings` (lines 90-96): push the four stored
settings values into the widgets through the programmatic setters
(return values discarded). -/
def HorizontalDock.loadSettings (d : HorizontalDock) (scope : DsoSettingsScope) :
    HorizontalDock × List Obs :=
  let r1 := d.setSamplerate scope.horizontal.samplerate
  let r2 := r1.1.setTimebase scope.horizontal.timebase
  let r3 := r2.1.setFormat scope.horizontal.format
  let r4 := r3.1.setCalfreq scope.horizontal.calfreq
  (r4.1, r1.2.2 ++ r2.2.2 ++ r3.2.2 ++ r4.2.2)

/-- `HorizontalDock::setSamplerateSteps` (lines 161-175): store the
device's fixed samplerates, bind the samplerate spin box to them (mode,
steps, minimum = first, maximum = last), lower the timebase spin-box
minimum to the decade of `1 / steps.last()`, and recompute the
samplerate limits from the current timebase spin-box value. -/
def HorizontalDock.setSamplerateSteps (d : HorizontalDock) (mode : ℤ) (steps : List ℚ) :
    HorizontalDock × List Obs :=
  let d1 := { d with samplerateSteps := steps }
  let sb := (((d1.samplerateSiSpinBox.setMode mode).setSteps steps).setMinimum
      (steps.headD 0)).setMaximum (steps.getLastD 0)
  let d2 := { d1 with samplerateSiSpinBox := sb }
  let tb := d2.timebaseSiSpinBox.setMinimum ((10 : ℚ) ^ floorLog10 (1 / steps.getLastD 0))
  let d3 := { d2 with timebaseSiSpinBox := tb }
  d3.calculateSamplerateSteps d3.timebaseSiSpinBox.value

/-- `HorizontalDock::samplerateSelected` (lines 180-184): write the
edited samplerate into the shared settings object, then emit
`samplerateChanged`. -/
def HorizontalDock.samplerateSelected (d : HorizontalDock) (samplerate : ℚ) :
    HorizontalDock × List Obs :=
  let d1 := { d with scope := { d.scope with horizontal := { d.scope.horizontal with samplerate := samplerate } } }
  (d1, [Obs.scopeSamplerate samplerate, Obs.sigSamplerateChanged samplerate])

/-- `HorizontalDock::timebaseSelected` (lines 189-194): write the edited
timebase into the shared settings object, recompute the samplerate
limits from it, then emit `timebaseChanged`. -/
def HorizontalDock.timebaseSelected (d : HorizontalDock) (timebase : ℚ) :
    HorizontalDock × List Obs :=
  let d1 := { d with scope := { d.scope with horizontal := { d.scope.horizontal with timebase := timebase } } }
  let c := d1.calculateSamplerateSteps timebase
  (c.1, Obs.scopeTimebase timebase :: c.2 ++ [Obs.sigTimebaseChanged timebase])

/-- `HorizontalDock::formatSelected` (lines 227-230): write
`GraphFormat(index)` into the shared settings object, then emit
`formatChanged` with the value just stored. -/
def HorizontalDock.formatSelected (d : HorizontalDock) (index : ℤ) :
    HorizontalDock × List Obs :=
  let d1 := { d with scope := { d.scope with horizontal := { d.scope.horizontal with format := index } } }
  (d1, [Obs.scopeFormat index, Obs.sigFormatChanged d1.scope.horizontal.format])

/-- `HorizontalDock::calfreqSelected` (lines 235-239): write the edited
calibration frequency into the shared settings object, then emit
`calfreqChanged`. -/
def HorizontalDock.calfreqSelected (d : HorizontalDock) (calfreq : ℚ) :
    HorizontalDock × List Obs :=
  let d1 := { d with scope := { d.scope with horizontal := { d.scope.horizontal with calfreq := calfreq } } }
  (d1, [Obs.scopeCalfreq calfreq, Obs.sigCalfreqChanged calfreq])

/-- The constructor `HorizontalDock::HorizontalDock` (lines 29-88):
build the spin boxes (samplerate range `[1, 1e8]`; timebase steps
`1, 2, 5, 10`, range `[1e-9, 1e3]`; calibration-frequency steps from the
device specification with minimum its first and maximum its last
element), start the combo box at the first format, leave the stored
samplerate list empty, then load the settings values into the widgets.
Signal/slot connections are made only after `loadSettings` returns, so
the constructor emits nothing. -/
def HorizontalDock.init (scope : DsoSettingsScope) (spec : ControlSpecification) :
    HorizontalDock × List Obs :=
  let samplerateSB := (SiSpinBox.new.setMinimum 1).setMaximum 100000000
  let timebaseSB := ((SiSpinBox.new.setSteps timebaseSteps).setMinimum
      (1 / 1000000000)).setMaximum 1000
  let calfreqSB := ((SiSpinBox.new.setSteps spec.calfreqSteps).setMinimum
      (spec.calfreqSteps.headD 0)).setMaximum (spec.calfreqSteps.getLastD 0)
  let d : HorizontalDock :=
    { scope := scope
      samplerateSiSpinBox := samplerateSB
      timebaseSiSpinBox := timebaseSB
      formatIndex := GraphFormatTY
      calfreqSiSpinBox := calfreqSB
      samplerateSteps := [] }
  d.loadSettings scope

/-! ### Specification-side definitions

These follow the wording of the specification claims and are compared
with the code-derived functions above. -/

/-- Maximum of the nonempty list `x :: xs`. -/
def maxOf (x : ℚ) (xs : List ℚ) : ℚ :=
  xs.foldl max x

/-- The largest element of `l` satisfying `p`, or `dflt` when no
element does. -/
def largestSat (p : ℚ → Bool) (dflt : ℚ) (l : List ℚ) : ℚ :=
  match l.filter p with
  | [] => dflt
  | x :: xs => maxOf x xs

/-- Claim wording: "the largest step s at index >= 1 with
s*t <= 1000 (otherwise the first step)". -/
def srMaxSpec (steps : List ℚ) (t : ℚ) : ℚ :=
  largestSat (fun s => decide (s * t ≤ 1000)) (steps.headD 0) steps.tail

/-- Claim wording: "the largest step s at index < size-1 with
s*t <= 10 (otherwise the first step)". -/
def srMinSpecRaw (steps : List ℚ) (t : ℚ) : ℚ :=
  largestSat (fun s => decide (s * t ≤ 10)) (steps.headD 0) steps.dropLast

/-- Claim wording: "the minimum is raised to min(10e3, maximum) if it
is smaller". -/
def srMinSpec (steps : List ℚ) (t : ℚ) : ℚ :=
  max (srMinSpecRaw steps t) (min 10000 (srMaxSpec steps t))

/-- Claim wording: "the largest step among {1, 2, 5} that is <=
vNorm". -/
def largestTbStepLe (v : ℚ) : ℚ :=
  largestSat (fun s => decide (s ≤ v)) 0 [1, 2, 5]

/-- The normalized mantissa `vNorm = t / 10 ^ floor (log10 t)` used by
`setTimebase` and by the claims about it. -/
def vNormOf (t : ℚ) : ℚ :=
  t / (10 : ℚ) ^ floorLog10 t

/-- The value kept by the `calculateSamplerateSteps` loop: the last
element of the list satisfying `p`, or `dflt` when no element does. -/
def lastSat (p : ℚ → Bool) : ℚ → List ℚ → ℚ
  | dflt, [] => dflt
  | dflt, s :: rest => lastSat p (if p s then s else dflt) rest

/-! ### Concrete fixtures for witnesses and counterexamples -/

/-- A concrete settings object. -/
def scopeW : DsoSettingsScope :=
  { horizontal :=
    { samplerate := 1000000, timebase := 1 / 1000, format := 0, calfreq := 1000,
      maxTimebase := 1000 } }

/-- A concrete device specification (calibration-frequency steps). -/
def specW : ControlSpecification :=
  { calfreqSteps := [50, 100, 500, 1000, 10000] }

/-- A freshly constructed dock over the concrete fixtures. -/
def dockW : HorizontalDock :=
  (HorizontalDock.init scopeW specW).1

/-- A concrete ascending list of device samplerates. -/
def stepsW : List ℚ :=
  [20000, 50000, 100000, 1000000]

/-- The concrete dock with its samplerate list filled in. -/
def dockS : HorizontalDock :=
  { dockW with samplerateSteps := stepsW }

/-! ### Frame lemmas -/

/-- `setSamplerateLimits` only touches the samplerate spin box. -/
lemma setSamplerateLimits_scope (d : HorizontalDock) (a b : ℚ) :
    (d.setSamplerateLimits a b).1.scope = d.scope := by
  simp only [HorizontalDock.setSamplerateLimits]
  split <;> split <;> rfl

/-- `setSamplerateLimits` leaves the timebase spin box unchanged. -/
lemma setSamplerateLimits_timebase (d : HorizontalDock) (a b : ℚ) :
    (d.setSamplerateLimits a b).1.timebaseSiSpinBox = d.timebaseSiSpinBox := by
  simp only [HorizontalDock.setSamplerateLimits]
  split <;> split <;> rfl

/-- `setSamplerateLimits` leaves the calibration-frequency spin box
unchanged. -/
lemma setSamplerateLimits_calfreq (d : HorizontalDock) (a b : ℚ) :
    (d.setSamplerateLimits a b).1.calfreqSiSpinBox = d.calfreqSiSpinBox := by
  simp only [HorizontalDock.setSamplerateLimits]
  split <;> split <;> rfl

/-- `calculateSamplerateSteps` only touches the samplerate spin box. -/
lemma calculateSamplerateSteps_scope (d : HorizontalDock) (t : ℚ) :
    (d.calculateSamplerateSteps t).1.scope = d.scope := by
  simp only [HorizontalDock.calculateSamplerateSteps]
  split
  · exact setSamplerateLimits_scope ..
  · rfl

/-- `calculateSamplerateSteps` leaves the timebase spin box
unchanged. -/
lemma calculateSamplerateSteps_timebase (d : HorizontalDock) (t : ℚ) :
    (d.calculateSamplerateSteps t).1.timebaseSiSpinBox = d.timebaseSiSpinBox := by
  simp only [HorizontalDock.calculateSamplerateSteps]
  split
  · exact setSamplerateLimits_timebase ..
  · rfl

/-- `calculateSamplerateSteps` leaves the calibration-frequency spin
box unchanged. -/
lemma calculateSamplerateSteps_calfreq (d : HorizontalDock) (t : ℚ) :
    (d.calculateSamplerateSteps t).1.calfreqSiSpinBox = d.calfreqSiSpinBox := by
  simp only [HorizontalDock.calculateSamplerateSteps]
  split
  · exact setSamplerateLimits_calfreq ..
  · rfl

/-- The trace of `calculateSamplerateSteps` holds at most one
samplerate-limit observation and nothing else. -/
lemma calculateSamplerateSteps_trace (d : HorizontalDock) (t : ℚ) :
    (d.calculateSamplerateSteps t).2 = [] ∨
      ∃ a b, (d.calculateSamplerateSteps t).2 = [Obs.samplerateLimits a b] := by
  simp only [HorizontalDock.calculateSamplerateSteps]
  split
  · right
    exact ⟨_, _, rfl⟩
  · left
    rfl

/-- `setSamplerate` does not write the shared settings object. -/
lemma setSamplerate_scope (d : HorizontalDock) (v : ℚ) :
    (d.setSamplerate v).1.scope = d.scope := rfl

/-- `setSamplerate` leaves the calibration-frequency spin box
unchanged. -/
lemma setSamplerate_calfreq (d : HorizontalDock) (v : ℚ) :
    (d.setSamplerate v).1.calfreqSiSpinBox = d.calfreqSiSpinBox := rfl

/-- `setTimebase` does not write the shared settings object. -/
lemma setTimebase_scope (d : HorizontalDock) (t : ℚ) :
    (d.setTimebase t).1.scope = d.scope := by
  simp only [HorizontalDock.setTimebase]
  split <;> exact calculateSamplerateSteps_scope ..

/-- `setTimebase` leaves the calibration-frequency spin box
unchanged. -/
lemma setTimebase_calfreq (d : HorizontalDock) (t : ℚ) :
    (d.setTimebase t).1.calfreqSiSpinBox = d.calfreqSiSpinBox := by
  simp only [HorizontalDock.setTimebase]
  split <;> exact calculateSamplerateSteps_calfreq ..

/-- `setFormat` does not write the shared settings object. -/
lemma setFormat_scope (d : HorizontalDock) (f : ℤ) :
    (d.setFormat f).1.scope = d.scope := by
  simp only [HorizontalDock.setFormat]
  split <;> rfl

/-- `setFormat` leaves the calibration-frequency spin box unchanged. -/
lemma setFormat_calfreq (d : HorizontalDock) (f : ℤ) :
    (d.setFormat f).1.calfreqSiSpinBox = d.calfreqSiSpinBox := by
  simp only [HorizontalDock.setFormat]
  split <;> rfl

/-- `setCalfreq` does not write the shared settings object. -/
lemma setCalfreq_scope (d : HorizontalDock) (v : ℚ) :
    (d.setCalfreq v).1.scope = d.scope := rfl

/-- `setCalfreq` keeps the bounds and steps of the
calibration-frequency spin box. -/
lemma setCalfreq_calfreq_fields (d : HorizontalDock) (v : ℚ) :
    (d.setCalfreq v).1.calfreqSiSpinBox.minimum = d.calfreqSiSpinBox.minimum ∧
    (d.setCalfreq v).1.calfreqSiSpinBox.maximum = d.calfreqSiSpinBox.maximum ∧
    (d.setCalfreq v).1.calfreqSiSpinBox.steps = d.calfreqSiSpinBox.steps :=
  ⟨rfl, rfl, rfl⟩

/-- `loadSettings` does not write the shared settings object. -/
lemma loadSettings_scope (d : HorizontalDock) (s : DsoSettingsScope) :
    (d.loadSettings s).1.scope = d.scope := by
  simp only [HorizontalDock.loadSettings]
  rw [setCalfreq_scope, setFormat_scope, setTimebase_scope, setSamplerate_scope]

/-! ### Claim theorems: slots and frame claims -/

/-- C3.  Every user edit writes exactly the edited value into the
matching field of the shared settings object and emits exactly the
matching notification signal with that same value: `samplerateSelected`
writes `samplerate` and emits `samplerateChanged`, `timebaseSelected`
writes `timebase` and emits `timebaseChanged`, `formatSelected` writes
`format` (as a graph format) and emits `formatChanged` with the stored
format, and `calfreqSelected` writes `calfreq` and emits
`calfreqChanged`. -/
theorem selected_slots_propagate (d : HorizontalDock) (v t : ℚ) (i : ℤ) (c : ℚ) :
    ((d.samplerateSelected v).1.scope.horizontal.samplerate = v ∧
      (d.samplerateSelected v).2.filter Obs.isSig = [Obs.sigSamplerateChanged v]) ∧
    ((d.timebaseSelected t).1.scope.horizontal.timebase = t ∧
      (d.timebaseSelected t).2.filter Obs.isSig = [Obs.sigTimebaseChanged t]) ∧
    ((d.formatSelected i).1.scope.horizontal.format = i ∧
      (d.formatSelected i).2.filter Obs.isSig = [Obs.sigFormatChanged i]) ∧
    ((d.calfreqSelected c).1.scope.horizontal.calfreq = c ∧
      (d.calfreqSelected c).2.filter Obs.isSig = [Obs.sigCalfreqChanged c]) := by
  refine ⟨⟨rfl, rfl⟩, ⟨?_, ?_⟩, ⟨rfl, rfl⟩, ⟨rfl, rfl⟩⟩
  · simp only [HorizontalDock.timebaseSelected]
    rw [calculateSamplerateSteps_scope]
  · simp only [HorizontalDock.timebaseSelected, List.filter_cons, List.filter_append]
    rcases calculateSamplerateSteps_trace
        { d with scope := { d.scope with horizontal := { d.scope.horizontal with timebase := t } } } t with
      h | ⟨a, b, h⟩ <;> rw [h] <;> rfl

/-- C5.  In `timebaseSelected t` the shared settings field
`scope.horizontal.timebase` is updated to `t` first, the samplerate
range is then recalculated from `t` via `calculateSamplerateSteps` on
the already-updated state, and the `timebaseChanged t` notification is
emitted only after that recalculation: the resulting state is the
recalculation's state, and the trace lists the settings write first,
the recalculation's effects next, and the signal last. -/
theorem timebaseSelected_order (d : HorizontalDock) (t : ℚ) :
    ((d.timebaseSelected t).1 =
      (({ d with scope := { d.scope with horizontal :=
          { d.scope.horizontal with timebase := t } } }).calculateSamplerateSteps t).1 ∧
      ({ d with scope := { d.scope with horizontal :=
          { d.scope.horizontal with timebase := t } } } : HorizontalDock).scope.horizontal.timebase = t) ∧
    (d.timebaseSelected t).2 =
      Obs.scopeTimebase t ::
        ((({ d with scope := { d.scope with horizontal :=
            { d.scope.horizontal with timebase := t } } }).calculateSamplerateSteps t).2 ++
          [Obs.sigTimebaseChanged t]) :=
  ⟨⟨rfl, rfl⟩, rfl⟩

/-- C8.  `setSamplerateLimits` treats a zero argument as "leave this
bound unchanged" and a nonzero argument as "replace this bound". -/
theorem setSamplerateLimits_zero_frame (d : HorizontalDock) (mn mx : ℚ) :
    (mn = 0 →
      (d.setSamplerateLimits mn mx).1.samplerateSiSpinBox.minimum =
        d.samplerateSiSpinBox.minimum) ∧
    (mx = 0 →
      (d.setSamplerateLimits mn mx).1.samplerateSiSpinBox.maximum =
        d.samplerateSiSpinBox.maximum) ∧
    (mn ≠ 0 →
      (d.setSamplerateLimits mn mx).1.samplerateSiSpinBox.minimum = mn) ∧
    (mx ≠ 0 →
      (d.setSamplerateLimits mn mx).1.samplerateSiSpinBox.maximum = mx) := by
  refine ⟨?_, ?_, ?_, ?_⟩ <;> intro h <;>
    simp only [HorizontalDock.setSamplerateLimits] <;>
    by_cases hmn : mn = 0 <;> by_cases hmx : mx = 0 <;>
    simp_all [SiSpinBox.setMinimum, SiSpinBox.setMaximum]

/-- C8 witness: with a zero minimum and the nonzero maximum `7`, the
minimum bound of the concrete dock is kept and the maximum replaced. -/
theorem setSamplerateLimits_zero_frame_witness :
    (dockW.setSamplerateLimits 0 7).1.samplerateSiSpinBox.minimum =
      dockW.samplerateSiSpinBox.minimum ∧
    (dockW.setSamplerateLimits 0 7).1.samplerateSiSpinBox.maximum = 7 :=
  ⟨(setSamplerateLimits_zero_frame dockW 0 7).1 rfl,
    (setSamplerateLimits_zero_frame dockW 0 7).2.2.2 (by norm_num)⟩

/-- C9.  The programmatic setters and `loadSettings` run with widget
signals blocked: none of them writes the shared settings object, and
none of their traces holds a settings write or a signal emission. -/
theorem programmatic_setters_scope_frame (d : HorizontalDock) (v t c : ℚ) (f : ℤ)
    (s : DsoSettingsScope) :
    ((d.setSamplerate v).1.scope = d.scope ∧
      (d.setTimebase t).1.scope = d.scope ∧
      (d.setFormat f).1.scope = d.scope ∧
      (d.setCalfreq c).1.scope = d.scope ∧
      (d.loadSettings s).1.scope = d.scope) ∧
    ((d.setSamplerate v).2.2.all (fun o => !o.isSig && !o.isScopeWrite) = true ∧
      (d.setTimebase t).2.2.all (fun o => !o.isSig && !o.isScopeWrite) = true ∧
      (d.setFormat f).2.2.all (fun o => !o.isSig && !o.isScopeWrite) = true ∧
      (d.setCalfreq c).2.2.all (fun o => !o.isSig && !o.isScopeWrite) = true ∧
      (d.loadSettings s).2.all (fun o => !o.isSig && !o.isScopeWrite) = true) := by
  have htrace : ∀ (e : HorizontalDock) (u : ℚ),
      (e.calculateSamplerateSteps u).2.all (fun o => !o.isSig && !o.isScopeWrite) = true := by
    intro e u
    rcases calculateSamplerateSteps_trace e u with h | ⟨a, b, h⟩ <;> rw [h] <;> rfl
  have htb : ∀ (e : HorizontalDock) (u : ℚ),
      (e.setTimebase u).2.2.all (fun o => !o.isSig && !o.isScopeWrite) = true := by
    intro e u
    simp only [HorizontalDock.setTimebase]
    split <;> exact htrace ..
  have hfmt : ∀ (e : HorizontalDock) (g : ℤ),
      (e.setFormat g).2.2.all (fun o => !o.isSig && !o.isScopeWrite) = true := by
    intro e g
    simp only [HorizontalDock.setFormat]
    split <;> rfl
  refine ⟨⟨setSamplerate_scope .., setTimebase_scope .., setFormat_scope ..,
    setCalfreq_scope .., loadSettings_scope ..⟩, ⟨rfl, htb .., hfmt .., rfl, ?_⟩⟩
  simp only [HorizontalDock.loadSettings, List.all_append, Bool.and_eq_true]
  exact ⟨⟨⟨rfl, htb ..⟩, hfmt ..⟩, rfl⟩

/-- On a nonempty list `headD` is the head. -/
lemma headD_eq_head (l : List ℚ) (h : l ≠ []) : l.headD 0 = l.head h := by
  cases l with
  | nil => exact absurd rfl h
  | cons a as => rfl

/-- On a nonempty list `getLastD` is the last element. -/
lemma getLastD_eq_getLast (l : List ℚ) (h : l ≠ []) : l.getLastD 0 = l.getLast h := by
  rw [List.getLastD_eq_getLast?, List.getLast?_eq_getLast l h]
  rfl

/-- `loadSettings` keeps the bounds and steps of the
calibration-frequency spin box. -/
lemma loadSettings_calfreq_fields (d : HorizontalDock) (s : DsoSettingsScope) :
    (d.loadSettings s).1.calfreqSiSpinBox.minimum = d.calfreqSiSpinBox.minimum ∧
    (d.loadSettings s).1.calfreqSiSpinBox.maximum = d.calfreqSiSpinBox.maximum ∧
    (d.loadSettings s).1.calfreqSiSpinBox.steps = d.calfreqSiSpinBox.steps := by
  simp only [HorizontalDock.loadSettings]
  refine ⟨?_, ?_, ?_⟩
  · rw [(setCalfreq_calfreq_fields ..).1, setFormat_calfreq, setTimebase_calfreq,
      setSamplerate_calfreq]
  · rw [(setCalfreq_calfreq_fields ..).2.1, setFormat_calfreq, setTimebase_calfreq,
      setSamplerate_calfreq]
  · rw [(setCalfreq_calfreq_fields ..).2.2, setFormat_calfreq, setTimebase_calfreq,
      setSamplerate_calfreq]

/-- C6.  For a nonempty step list, `setSamplerateSteps mode steps`
first produces an intermediate state in which the step list is stored,
the samplerate spin box carries the given mode and steps with minimum
the first and maximum the last element, and the timebase spin-box
minimum is the decade of the reciprocal of the last step; it then
finishes by recomputing the samplerate limits from the current timebase
spin-box value of that intermediate state. -/
theorem setSamplerateSteps_binds (d : HorizontalDock) (mode : ℤ) (steps : List ℚ)
    (h : steps ≠ []) :
    ∃ mid : HorizontalDock,
      mid.samplerateSteps = steps ∧
      mid.samplerateSiSpinBox.mode = mode ∧
      mid.samplerateSiSpinBox.steps = steps ∧
      mid.samplerateSiSpinBox.minimum = steps.head h ∧
      mid.samplerateSiSpinBox.maximum = steps.getLast h ∧
      mid.timebaseSiSpinBox.minimum = (10 : ℚ) ^ floorLog10 (1 / steps.getLast h) ∧
      d.setSamplerateSteps mode steps =
        mid.calculateSamplerateSteps mid.timebaseSiSpinBox.value := by
  refine ⟨{ d with
      samplerateSteps := steps
      samplerateSiSpinBox := (((d.samplerateSiSpinBox.setMode mode).setSteps
        steps).setMinimum (steps.headD 0)).setMaximum (steps.getLastD 0)
      timebaseSiSpinBox := d.timebaseSiSpinBox.setMinimum
        ((10 : ℚ) ^ floorLog10 (1 / steps.getLastD 0)) },
    rfl, rfl, rfl, ?_, ?_, ?_, rfl⟩
  · simp only [SiSpinBox.setMaximum, SiSpinBox.setMinimum, SiSpinBox.setSteps,
      SiSpinBox.setMode]
    exact headD_eq_head steps h
  · simp only [SiSpinBox.setMaximum, SiSpinBox.setMinimum, SiSpinBox.setSteps,
      SiSpinBox.setMode]
    exact getLastD_eq_getLast steps h
  · simp only [SiSpinBox.setMinimum]
    rw [getLastD_eq_getLast steps h]

/-- C6 witness: at the concrete dock and step list, `setSamplerateSteps`
factors through an intermediate state storing the list. -/
theorem setSamplerateSteps_binds_witness :
    ∃ mid : HorizontalDock,
      mid.samplerateSteps = stepsW ∧
      dockW.setSamplerateSteps 1 stepsW =
        mid.calculateSamplerateSteps mid.timebaseSiSpinBox.value := by
  obtain ⟨mid, h1, _, _, _, _, _, h7⟩ :=
    setSamplerateSteps_binds dockW 1 stepsW (by simp [stepsW])
  exact ⟨mid, h1, h7⟩

/-- C7.  At construction the calibration-frequency spin box is bound to
the device's calibration-frequency steps (step list, minimum = first
element, maximum = last element), and `setCalfreq f` assigns `f` to the
spin box (clamped into its range) and returns the resulting spin-box
value. -/
theorem calfreq_binding (sc : DsoSettingsScope) (sp : ControlSpecification)
    (h : sp.calfreqSteps ≠ []) (d : HorizontalDock) (f : ℚ) :
    ((HorizontalDock.init sc sp).1.calfreqSiSpinBox.steps = sp.calfreqSteps ∧
      (HorizontalDock.init sc sp).1.calfreqSiSpinBox.minimum = sp.calfreqSteps.head h ∧
      (HorizontalDock.init sc sp).1.calfreqSiSpinBox.maximum = sp.calfreqSteps.getLast h) ∧
    ((d.setCalfreq f).1.calfreqSiSpinBox.value =
        max d.calfreqSiSpinBox.minimum (min d.calfreqSiSpinBox.maximum f) ∧
      (d.setCalfreq f).2.1 = (d.setCalfreq f).1.calfreqSiSpinBox.value) := by
  refine ⟨⟨?_, ?_, ?_⟩, rfl, rfl⟩
  · rw [show (HorizontalDock.init sc sp).1.calfreqSiSpinBox.steps =
        (((SiSpinBox.new.setSteps sp.calfreqSteps).setMinimum
          (sp.calfreqSteps.headD 0)).setMaximum (sp.calfreqSteps.getLastD 0)).steps from
        (loadSettings_calfreq_fields ..).2.2]
    rfl
  · rw [show (HorizontalDock.init sc sp).1.calfreqSiSpinBox.minimum =
        (((SiSpinBox.new.setSteps sp.calfreqSteps).setMinimum
          (sp.calfreqSteps.headD 0)).setMaximum (sp.calfreqSteps.getLastD 0)).minimum from
        (loadSettings_calfreq_fields ..).1]
    simp only [SiSpinBox.setMaximum, SiSpinBox.setMinimum, SiSpinBox.setSteps]
    exact headD_eq_head sp.calfreqSteps h
  · rw [show (HorizontalDock.init sc sp).1.calfreqSiSpinBox.maximum =
        (((SiSpinBox.new.setSteps sp.calfreqSteps).setMinimum
          (sp.calfreqSteps.headD 0)).setMaximum (sp.calfreqSteps.getLastD 0)).maximum from
        (loadSettings_calfreq_fields ..).2.1]
    simp only [SiSpinBox.setMaximum, SiSpinBox.setMinimum, SiSpinBox.setSteps]
    exact getLastD_eq_getLast sp.calfreqSteps h

/-- C7 witness: for the concrete device specification, the constructed
dock has calibration-frequency minimum `50` (the first step), and
`setCalfreq 7` returns `50`, the value clamped into the range. -/
theorem calfreq_binding_witness :
    (HorizontalDock.init scopeW specW).1.calfreqSiSpinBox.minimum = 50 ∧
    (dockW.setCalfreq 7).2.1 = 50 := by
  have h := calfreq_binding scopeW specW (by simp [specW]) dockW 7
  refine ⟨?_, ?_⟩
  · rw [h.1.2.1]
    with_unfolding_all rfl
  · rw [h.2.2, h.2.1]
    with_unfolding_all rfl

/-- On the normalized mantissa range `[1, 10)` the step-grid search of
`setTimebase` returns exactly the largest of the steps `1, 2, 5` that
is at most the mantissa. -/
lemma firstMatch_eq_largestTbStepLe (v : ℚ) (h1 : 1 ≤ v) (h10 : v < 10) :
    firstMatch timebaseSteps v = some (largestTbStepLe v) := by
  by_cases hv2 : v < 2
  · have n2 : ¬ (2 ≤ v) := not_le.mpr hv2
    have n5 : ¬ (5 ≤ v) := not_le.mpr (lt_trans hv2 (by norm_num))
    simp [timebaseSteps, firstMatch, largestTbStepLe, largestSat, maxOf,
      List.filter, h1, hv2, n2, n5]
  · by_cases hv5 : v < 5
    · have h2 : (2:ℚ) ≤ v := not_lt.mp hv2
      have n5 : ¬ (5 ≤ v) := not_le.mpr hv5
      simp [timebaseSteps, firstMatch, largestTbStepLe, largestSat, maxOf,
        List.filter, h1, h2, hv2, hv5, n5]
    · have h5 : (5:ℚ) ≤ v := not_lt.mp hv5
      have h2 : (2:ℚ) ≤ v := le_trans (by norm_num) h5
      simp [timebaseSteps, firstMatch, largestTbStepLe, largestSat, maxOf,
        List.filter, h1, h2, h5, hv2, hv5, h10]
      norm_num

/-- C1 (amended).  For a positive timebase whose normalized mantissa
lies in `[1, 10)`, `setTimebase t` assigns to the timebase spin box the
decade of `t` times the largest step among `1, 2, 5` that is at most
the mantissa — clamped into the spin box's `[minimum, maximum]` range —
and returns the resulting spin-box value. -/
theorem setTimebase_snaps_to_grid (d : HorizontalDock) (t : ℚ) (ht : 0 < t)
    (h1 : 1 ≤ vNormOf t) (h10 : vNormOf t < 10) :
    (d.setTimebase t).1.timebaseSiSpinBox.value =
      max d.timebaseSiSpinBox.minimum (min d.timebaseSiSpinBox.maximum
        ((10 : ℚ) ^ floorLog10 t * largestTbStepLe (vNormOf t))) ∧
    (d.setTimebase t).2.1 = (d.setTimebase t).1.timebaseSiSpinBox.value := by
  refine ⟨?_, rfl⟩
  have hm := firstMatch_eq_largestTbStepLe (vNormOf t) h1 h10
  simp only [HorizontalDock.setTimebase]
  rw [show t / (10 : ℚ) ^ floorLog10 t = vNormOf t from rfl, hm]
  rw [calculateSamplerateSteps_timebase]
  rfl

/-- C1 witness: at the concrete dock and timebase `3` (mantissa `3`,
decade `1`) the spin box receives the grid value `2` clamped into its
range. -/
theorem setTimebase_snaps_to_grid_witness :
    ((0:ℚ) < 3 ∧ 1 ≤ vNormOf 3 ∧ vNormOf 3 < 10) ∧
    (dockW.setTimebase 3).1.timebaseSiSpinBox.value =
      max dockW.timebaseSiSpinBox.minimum (min dockW.timebaseSiSpinBox.maximum
        ((10 : ℚ) ^ floorLog10 3 * largestTbStepLe (vNormOf 3))) := by
  have hv : vNormOf 3 = 3 := by with_unfolding_all rfl
  have h1 : 1 ≤ vNormOf 3 := by rw [hv]; norm_num
  have h10 : vNormOf 3 < 10 := by rw [hv]; norm_num
  exact ⟨⟨by norm_num, h1, h10⟩,
    (setTimebase_snaps_to_grid dockW 3 (by norm_num) h1 h10).1⟩

/-- C1 counterexample: at the concrete dock and timebase `10^4` (whose
mantissa is `1`, so the claim's hypotheses hold and its grid value is
`10^4`) the spin-box value after `setTimebase` is the range maximum
`10^3`, not the grid value, so the claim as stated fails. -/
theorem setTimebase_claim_counterexample :
    ((0:ℚ) < 10000 ∧ 1 ≤ vNormOf 10000 ∧ vNormOf 10000 < 10) ∧
    (10 : ℚ) ^ floorLog10 10000 * largestTbStepLe (vNormOf 10000) = 10000 ∧
    (dockW.setTimebase 10000).1.timebaseSiSpinBox.value = 1000 ∧
    (dockW.setTimebase 10000).1.timebaseSiSpinBox.value ≠
      (10 : ℚ) ^ floorLog10 10000 * largestTbStepLe (vNormOf 10000) ∧
    (dockW.setTimebase 10000).2.1 = 1000 := by
  have hv : vNormOf 10000 = 1 := by with_unfolding_all rfl
  have e2 : (10 : ℚ) ^ floorLog10 10000 * largestTbStepLe (vNormOf 10000) = 10000 := by
    with_unfolding_all rfl
  have e3 : (dockW.setTimebase 10000).1.timebaseSiSpinBox.value = 1000 := by
    with_unfolding_all rfl
  have e4 : (dockW.setTimebase 10000).2.1 = 1000 := by
    with_unfolding_all rfl
  refine ⟨⟨by norm_num, by rw [hv], by rw [hv]; norm_num⟩, e2, e3, ?_, e4⟩
  rw [e3, e2]
  norm_num

/-- A successful grid search returns one of the grid steps. -/
lemma firstMatch_mem : ∀ (l : List ℚ) (v s : ℚ), firstMatch l v = some s → s ∈ l
  | [], _, _, h => absurd h (by simp [firstMatch])
  | [_], _, _, h => absurd h (by simp [firstMatch])
  | a :: b :: rest, v, s, h => by
    rw [firstMatch] at h
    by_cases hc : a ≤ v ∧ v < b
    · rw [if_pos hc] at h
      rw [Option.some.injEq] at h
      rw [← h]
      exact List.mem_cons_self a (b :: rest)
    · rw [if_neg hc] at h
      exact List.mem_cons_of_mem a (firstMatch_mem (b :: rest) v s h)

/-- C4 (amended).  The spin-box-backed set operations handle any input
by clamping it into the valid range and never fail: `setSamplerate` and
`setCalfreq` return the input clamped into the spin-box range, and
`setTimebase` keeps the timebase spin-box bounds, changes its value at
most to a grid value clamped into those bounds, keeps the value inside
the range whenever it started there, and returns the resulting spin-box
value rather than any error.  `setFormat`, however, does not clamp: an
in-range format is stored and returned unchanged, while an out-of-range
format leaves the state untouched and is answered with the error value
`-1`. -/
theorem set_ops_clamping (d : HorizontalDock) (v w t : ℚ) (f : ℤ) :
    ((d.setSamplerate v).2.1 =
      max d.samplerateSiSpinBox.minimum (min d.samplerateSiSpinBox.maximum v)) ∧
    ((d.setCalfreq w).2.1 =
      max d.calfreqSiSpinBox.minimum (min d.calfreqSiSpinBox.maximum w)) ∧
    ((d.setTimebase t).1.timebaseSiSpinBox.minimum = d.timebaseSiSpinBox.minimum ∧
      (d.setTimebase t).1.timebaseSiSpinBox.maximum = d.timebaseSiSpinBox.maximum ∧
      ((d.setTimebase t).1.timebaseSiSpinBox.value = d.timebaseSiSpinBox.value ∨
        ∃ s, s ∈ timebaseSteps ∧
          (d.setTimebase t).1.timebaseSiSpinBox.value =
            max d.timebaseSiSpinBox.minimum
              (min d.timebaseSiSpinBox.maximum ((10 : ℚ) ^ floorLog10 t * s))) ∧
      (d.setTimebase t).2.1 = (d.setTimebase t).1.timebaseSiSpinBox.value ∧
      (d.timebaseSiSpinBox.minimum ≤ d.timebaseSiSpinBox.value →
        d.timebaseSiSpinBox.value ≤ d.timebaseSiSpinBox.maximum →
        d.timebaseSiSpinBox.minimum ≤ (d.setTimebase t).1.timebaseSiSpinBox.value ∧
          (d.setTimebase t).1.timebaseSiSpinBox.value ≤ d.timebaseSiSpinBox.maximum)) ∧
    (GraphFormatTY ≤ f ∧ f ≤ GraphFormatXY →
      d.setFormat f = ({ d with formatIndex := f }, (f, []))) ∧
    (¬(GraphFormatTY ≤ f ∧ f ≤ GraphFormatXY) →
      d.setFormat f = (d, (-1, []))) := by
  have htb : (d.setTimebase t).1.timebaseSiSpinBox = (
      match firstMatch timebaseSteps (vNormOf t) with
      | some s => d.timebaseSiSpinBox.setValue ((10 : ℚ) ^ floorLog10 t * s)
      | none => d.timebaseSiSpinBox) := by
    simp only [HorizontalDock.setTimebase]
    rw [show t / (10 : ℚ) ^ floorLog10 t = vNormOf t from rfl]
    split <;> rw [calculateSamplerateSteps_timebase]
  refine ⟨rfl, rfl, ⟨?_, ?_, ?_, rfl, ?_⟩, ?_, ?_⟩
  · rw [htb]
    cases firstMatch timebaseSteps (vNormOf t) <;> rfl
  · rw [htb]
    cases firstMatch timebaseSteps (vNormOf t) <;> rfl
  · rw [htb]
    cases hm : firstMatch timebaseSteps (vNormOf t) with
    | none => exact Or.inl rfl
    | some s => exact Or.inr ⟨s, firstMatch_mem timebaseSteps (vNormOf t) s hm, rfl⟩
  · intro hlo hhi
    rw [htb]
    cases firstMatch timebaseSteps (vNormOf t) with
    | none => exact ⟨hlo, hhi⟩
    | some s =>
      refine ⟨le_max_left _ _, max_le (le_trans hlo hhi) (min_le_left _ _)⟩
  all_goals intro h
  all_goals simp [HorizontalDock.setFormat, h]

/-- C4 witness: on the concrete dock, `setSamplerate 7` returns the
clamped value, `setTimebase 3` keeps the timebase spin-box value inside
its range, the in-range format `1` is stored and returned, and the
out-of-range format `5` is rejected with `-1`. -/
theorem set_ops_clamping_witness :
    (dockW.setSamplerate 7).2.1 = 7 ∧
    (dockW.timebaseSiSpinBox.minimum ≤ (dockW.setTimebase 3).1.timebaseSiSpinBox.value ∧
      (dockW.setTimebase 3).1.timebaseSiSpinBox.value ≤ dockW.timebaseSiSpinBox.maximum) ∧
    dockW.setFormat 1 = ({ dockW with formatIndex := 1 }, (1, [])) ∧
    dockW.setFormat 5 = (dockW, (-1, [])) := by
  have hlo : dockW.timebaseSiSpinBox.minimum = 1 / 1000000000 := by
    with_unfolding_all rfl
  have hval : dockW.timebaseSiSpinBox.value = 1 / 1000 := by
    with_unfolding_all rfl
  have hhi : dockW.timebaseSiSpinBox.maximum = 1000 := by
    with_unfolding_all rfl
  refine ⟨?_, ?_, ?_, ?_⟩
  · rw [(set_ops_clamping dockW 7 7 3 1).1]
    with_unfolding_all rfl
  · refine (set_ops_clamping dockW 7 7 3 1).2.2.1.2.2.2.2 ?_ ?_
    · rw [hlo, hval]
      norm_num
    · rw [hval, hhi]
      norm_num
  · exact (set_ops_clamping dockW 7 7 3 1).2.2.2.1 (by norm_num [GraphFormatTY, GraphFormatXY])
  · refine (set_ops_clamping dockW 7 7 3 5).2.2.2.2 ?_
    norm_num [GraphFormatTY, GraphFormatXY]

/-- C4 counterexample: `setFormat 5` on the concrete dock does not
clamp the out-of-range format into the valid range; it leaves the dock
unchanged and returns the error value `-1`, which itself lies outside
the valid format range. -/
theorem setFormat_no_clamp_counterexample :
    (dockW.setFormat 5).2.1 = -1 ∧
    (dockW.setFormat 5).1 = dockW ∧
    ((dockW.setFormat 5).2.1 < GraphFormatTY ∨
      GraphFormatXY < (dockW.setFormat 5).2.1) := by
  have e1 : (dockW.setFormat 5).2.1 = -1 := by with_unfolding_all rfl
  have e2 : (dockW.setFormat 5).1 = dockW := by with_unfolding_all rfl
  exact ⟨e1, e2, Or.inl (by rw [e1]; norm_num [GraphFormatTY])⟩

/-! ### The samplerate-range loop: characterization -/

/-- Unfolding lemma for `maxOf`. -/
lemma maxOf_cons (x y : ℚ) (ys : List ℚ) : maxOf x (y :: ys) = maxOf (max x y) ys := rfl

/-- The seed is a lower bound of `maxOf`. -/
lemma le_maxOf_left : ∀ (xs : List ℚ) (x : ℚ), x ≤ maxOf x xs := by
  intro xs
  induction xs with
  | nil => intro x; exact le_refl x
  | cons y ys ih =>
    intro x
    rw [maxOf_cons]
    exact le_trans (le_max_left x y) (ih (max x y))

/-- Every listed element is at most `maxOf`. -/
lemma le_maxOf_of_mem : ∀ (xs : List ℚ) (x z : ℚ), z ∈ x :: xs → z ≤ maxOf x xs := by
  intro xs
  induction xs with
  | nil =>
    intro x z hz
    rw [List.mem_singleton] at hz
    rw [hz]
    exact le_refl x
  | cons y ys ih =>
    intro x z hz
    rw [maxOf_cons]
    rcases List.mem_cons.mp hz with h | h
    · rw [h]
      exact le_trans (le_max_left x y) (le_maxOf_left ys (max x y))
    · rcases List.mem_cons.mp h with h2 | h2
      · rw [h2]
        exact le_trans (le_max_right x y) (le_maxOf_left ys (max x y))
      · exact ih (max x y) z (List.mem_cons_of_mem _ h2)

/-- `maxOf` is one of the listed elements. -/
lemma maxOf_mem : ∀ (xs : List ℚ) (x : ℚ), maxOf x xs ∈ x :: xs := by
  intro xs
  induction xs with
  | nil =>
    intro x
    exact List.mem_singleton.mpr rfl
  | cons y ys ih =>
    intro x
    rw [maxOf_cons]
    rcases List.mem_cons.mp (ih (max x y)) with h | h
    · rw [h]
      rcases max_choice x y with hc | hc <;> rw [hc]
      · exact List.mem_cons_self _ _
      · exact List.mem_cons_of_mem _ (List.mem_cons_self _ _)
    · exact List.mem_cons_of_mem _ (List.mem_cons_of_mem _ h)

/-- `largestSat` is either the fallback or a satisfying element of the
list. -/
lemma largestSat_cases (p : ℚ → Bool) (dflt : ℚ) (l : List ℚ) :
    largestSat p dflt l = dflt ∨
      (largestSat p dflt l ∈ l ∧ p (largestSat p dflt l) = true) := by
  simp only [largestSat]
  split
  · exact Or.inl rfl
  · rename_i x xs hfl
    right
    have hmem : maxOf x xs ∈ l.filter p := by
      rw [hfl]
      exact maxOf_mem xs x
    have h2 := List.mem_filter.mp hmem
    exact ⟨h2.1, h2.2⟩

/-- Every satisfying element is at most `largestSat`. -/
lemma le_largestSat_of_mem (p : ℚ → Bool) (dflt : ℚ) (l : List ℚ) (z : ℚ)
    (hz : z ∈ l) (hp : p z = true) : z ≤ largestSat p dflt l := by
  have hmem : z ∈ l.filter p := List.mem_filter.mpr ⟨hz, hp⟩
  simp only [largestSat]
  split
  · rename_i hfl
    rw [hfl] at hmem
    exact absurd hmem (List.not_mem_nil z)
  · rename_i x xs hfl
    rw [hfl] at hmem
    exact le_maxOf_of_mem xs x z hmem

/-- Unfolding lemma for `lastSat`. -/
lemma lastSat_cons (p : ℚ → Bool) (dflt s : ℚ) (rest : List ℚ) :
    lastSat p dflt (s :: rest) = lastSat p (if p s then s else dflt) rest := rfl

/-- On an ascending list, the last satisfying element kept by the loop
is the largest satisfying element. -/
lemma lastSat_eq_largestSat (p : ℚ → Bool) :
    ∀ (l : List ℚ), l.Sorted (· ≤ ·) → ∀ dflt : ℚ,
      lastSat p dflt l = largestSat p dflt l := by
  intro l
  induction l with
  | nil => intro _ dflt; rfl
  | cons s rest ih =>
    intro hs dflt
    have hall := (List.sorted_cons.mp hs).1
    have hrest := (List.sorted_cons.mp hs).2
    by_cases hp : p s = true
    · rw [lastSat_cons, if_pos hp, ih hrest s]
      simp only [largestSat, List.filter_cons, hp, if_pos]
      cases hfl : rest.filter p with
      | nil => simp [maxOf]
      | cons y ys =>
        have hy : s ≤ y := by
          refine hall y (List.mem_of_mem_filter (p := p) ?_)
          rw [hfl]
          exact List.mem_cons_self y ys
        simp [maxOf_cons, max_eq_right hy]
    · have hp' : p s = false := Bool.not_eq_true _ ▸ eq_false_of_ne_true hp
      rw [lastSat_cons, if_neg (by rw [hp']; exact Bool.false_ne_true), ih hrest dflt]
      simp only [largestSat, List.filter_cons, hp']
      rfl

/-- Unfolding lemma for `srLoopAux`. -/
lemma srLoopAux_cons (t : ℚ) (size : ℕ) (id : ℕ) (s : ℚ) (rest : List ℚ) (mn mx : ℚ) :
    srLoopAux t size id (s :: rest) (mn, mx) =
      srLoopAux t size (id + 1) rest
        (if id < size - 1 ∧ s * t ≤ 10 then s else mn,
         if id ≠ 0 ∧ s * t ≤ 1000 then s else mx) := rfl

/-- Past index `0`, the maximum tracked by the loop is the last listed
element with `s * t ≤ 1000`. -/
lemma srLoopAux_snd (t : ℚ) (size : ℕ) :
    ∀ (l : List ℚ) (id : ℕ) (mn mx : ℚ), id ≠ 0 →
      (srLoopAux t size id l (mn, mx)).2 =
        lastSat (fun s => decide (s * t ≤ 1000)) mx l := by
  intro l
  induction l with
  | nil => intro id mn mx _; rfl
  | cons s rest ih =>
    intro id mn mx h
    rw [srLoopAux_cons, ih (id + 1) _ _ (Nat.succ_ne_zero id), lastSat_cons]
    by_cases hst : s * t ≤ 1000 <;> simp [h, hst]

/-- While the running index plus the remaining length equals the full
size, the minimum tracked by the loop is the last element before the
final position with `s * t ≤ 10`. -/
lemma srLoopAux_fst (t : ℚ) (size : ℕ) :
    ∀ (l : List ℚ) (id : ℕ) (mn mx : ℚ), id + l.length = size →
      (srLoopAux t size id l (mn, mx)).1 =
        lastSat (fun s => decide (s * t ≤ 10)) mn l.dropLast := by
  intro l
  induction l with
  | nil => intro id mn mx _; rfl
  | cons s rest ih =>
    intro id mn mx h
    cases rest with
    | nil =>
      have hid : ¬ (id < size - 1) := by
        simp only [List.length_cons, List.length_nil] at h
        omega
      rw [srLoopAux_cons]
      simp [srLoopAux, lastSat, hid]
    | cons r rs =>
      have hlen : id + 1 + (r :: rs).length = size := by
        simp only [List.length_cons] at h ⊢
        omega
      have hid : id < size - 1 := by
        simp only [List.length_cons] at h
        omega
      rw [srLoopAux_cons, ih (id + 1) _ _ hlen,
        show (s :: r :: rs).dropLast = s :: (r :: rs).dropLast from rfl, lastSat_cons]
      by_cases hst : s * t ≤ 10 <;> simp [hid, hst]

/-- Running the loop over a nonempty list from index `0` yields the
last pre-final element with `s * t ≤ 10` (minimum) and the last
element past index `0` with `s * t ≤ 1000` (maximum). -/
lemma srLoopAux_full (t : ℚ) (l : List ℚ) (hne : l ≠ []) (mn mx : ℚ) :
    srLoopAux t l.length 0 l (mn, mx) =
      (lastSat (fun s => decide (s * t ≤ 10)) mn l.dropLast,
       lastSat (fun s => decide (s * t ≤ 1000)) mx l.tail) := by
  cases l with
  | nil => exact absurd rfl hne
  | cons s rest =>
    refine Prod.ext ?_ ?_
    · exact srLoopAux_fst t (s :: rest).length (s :: rest) 0 mn mx (by simp)
    · rw [srLoopAux_cons]
      rw [show (if (0 : ℕ) ≠ 0 ∧ s * t ≤ 1000 then s else mx) = mx by simp]
      rw [srLoopAux_snd t (s :: rest).length rest 1 _ mx Nat.one_ne_zero]
      rfl

/-- Characterization of `calculateSamplerateSteps` on a nonempty
ascending step list: it applies, via `setSamplerateLimits`, exactly the
bounds described by the specification-side functions `srMinSpec` and
`srMaxSpec`. -/
lemma calculateSamplerateSteps_spec (d : HorizontalDock) (t : ℚ)
    (hne : d.samplerateSteps ≠ []) (hs : d.samplerateSteps.Sorted (· ≤ ·)) :
    d.calculateSamplerateSteps t =
      d.setSamplerateLimits (srMinSpec d.samplerateSteps t)
        (srMaxSpec d.samplerateSteps t) := by
  have hdrop : d.samplerateSteps.dropLast.Sorted (· ≤ ·) :=
    hs.sublist (List.dropLast_sublist d.samplerateSteps)
  have htail : d.samplerateSteps.tail.Sorted (· ≤ ·) :=
    hs.sublist (List.tail_sublist d.samplerateSteps)
  simp only [HorizontalDock.calculateSamplerateSteps]
  rw [if_pos (show d.samplerateSteps.length ≠ 0 from
    fun h0 => hne (List.length_eq_zero.mp h0))]
  rw [srLoopAux_full t d.samplerateSteps hne]
  rw [lastSat_eq_largestSat _ _ hdrop, lastSat_eq_largestSat _ _ htail]
  rfl

/-- C2.  With an empty stored step list `calculateSamplerateSteps`
changes nothing; with a nonempty ascending step list it applies, via
`setSamplerateLimits`, the maximum `srMaxSpec` (the largest step at
index at least `1` with `step * timebase ≤ 1000`, else the first step)
and the minimum `srMinSpec` (the largest step at index below the last
with `step * timebase ≤ 10`, else the first step, raised to
`min (10e3)` of the maximum when smaller). -/
theorem calculateSamplerateSteps_range (d : HorizontalDock) (t : ℚ) :
    (d.samplerateSteps = [] → d.calculateSamplerateSteps t = (d, [])) ∧
    (d.samplerateSteps ≠ [] → d.samplerateSteps.Sorted (· ≤ ·) →
      d.calculateSamplerateSteps t =
        d.setSamplerateLimits (srMinSpec d.samplerateSteps t)
          (srMaxSpec d.samplerateSteps t)) := by
  constructor
  · intro h
    simp only [HorizontalDock.calculateSamplerateSteps]
    rw [if_neg]
    simp [h]
  · intro hne hs
    exact calculateSamplerateSteps_spec d t hne hs

/-- C2 witness: on the concrete dock with the ascending step list
`stepsW` and timebase `1/1000`, the derived limits are exactly the
specification-side bounds. -/
theorem calculateSamplerateSteps_range_witness :
    dockS.calculateSamplerateSteps (1 / 1000) =
      dockS.setSamplerateLimits (srMinSpec dockS.samplerateSteps (1 / 1000))
        (srMaxSpec dockS.samplerateSteps (1 / 1000)) := by
  refine (calculateSamplerateSteps_range dockS (1 / 1000)).2 ?_ ?_
  · show stepsW ≠ []
    simp [stepsW]
  · show stepsW.Sorted (· ≤ ·)
    simp only [stepsW, List.sorted_cons, List.mem_cons, List.mem_singleton]
    norm_num

/-- The fallback (the first step) is at most the derived maximum. -/
lemma headD_le_srMaxSpec (steps : List ℚ) (t : ℚ) (hne : steps ≠ [])
    (hs : steps.Sorted (· ≤ ·)) : steps.headD 0 ≤ srMaxSpec steps t := by
  rcases largestSat_cases (fun s => decide (s * t ≤ 1000)) (steps.headD 0) steps.tail with
    h | ⟨hmem, _⟩
  · rw [srMaxSpec, h]
  · cases steps with
    | nil => exact absurd rfl hne
    | cons a l =>
      exact (List.sorted_cons.mp hs).1 _ hmem

/-- On a nonempty ascending step list the derived minimum never
exceeds the derived maximum. -/
lemma srMinSpec_le_srMaxSpec (steps : List ℚ) (t : ℚ) (hne : steps ≠ [])
    (hs : steps.Sorted (· ≤ ·)) : srMinSpec steps t ≤ srMaxSpec steps t := by
  refine max_le ?_ (min_le_right _ _)
  rcases largestSat_cases (fun s => decide (s * t ≤ 10)) (steps.headD 0) steps.dropLast with
    h | ⟨hmem, hp⟩
  · rw [srMinSpecRaw, h]
    exact headD_le_srMaxSpec steps t hne hs
  · have hz : srMinSpecRaw steps t ∈ steps :=
      (List.dropLast_sublist steps).subset hmem
    have hp1000 : decide (srMinSpecRaw steps t * t ≤ 1000) = true := by
      have h10 : srMinSpecRaw steps t * t ≤ 10 := of_decide_eq_true hp
      exact decide_eq_true (le_trans h10 (by norm_num))
    cases steps with
    | nil => exact absurd rfl hne
    | cons a l =>
      rcases List.mem_cons.mp hz with h | h
      · rw [show srMinSpecRaw (a :: l) t = (a :: l).headD 0 from by rw [h]; rfl]
        exact headD_le_srMaxSpec (a :: l) t hne hs
      · exact le_largestSat_of_mem _ ((a :: l).headD 0) l _ h hp1000

/-- C10.  On a nonempty ascending step list and positive timebase, the
samplerate range applied by `calculateSamplerateSteps` has its minimum
at most its maximum: the final raise of the minimum never pushes it
above the maximum. -/
theorem samplerate_range_min_le_max (d : HorizontalDock) (t : ℚ)
    (hne : d.samplerateSteps ≠ []) (hs : d.samplerateSteps.Sorted (· ≤ ·))
    (ht : 0 < t) :
    ∃ mn mx : ℚ, d.calculateSamplerateSteps t = d.setSamplerateLimits mn mx ∧
      mn ≤ mx :=
  ⟨srMinSpec d.samplerateSteps t, srMaxSpec d.samplerateSteps t,
    calculateSamplerateSteps_spec d t hne hs,
    srMinSpec_le_srMaxSpec d.samplerateSteps t hne hs⟩

/-- C10 witness: on the concrete dock with ascending steps and positive
timebase, the applied limits are ordered. -/
theorem samplerate_range_min_le_max_witness :
    ∃ mn mx : ℚ, dockS.calculateSamplerateSteps (1 / 1000) =
      dockS.setSamplerateLimits mn mx ∧ mn ≤ mx := by
  refine samplerate_range_min_le_max dockS (1 / 1000) ?_ ?_ (by norm_num)
  · show stepsW ≠ []
    simp [stepsW]
  · show stepsW.Sorted (· ≤ ·)
    simp only [stepsW, List.sorted_cons, List.mem_cons, List.mem_singleton]
    norm_num
